import Mathlib

/-!
A verification development for the download-orchestration core of wikiget
(`src/wikiget/` in the repository): the target resolver (`parse.get_dest`,
`validations.valid_file`), the batch reader (`parse.read_batch_file`), the
integrity verifier (`validations.verify_hash`) and the download orchestrator
(`dl.prep_download`, `dl.download`, `dl.batch_download`, `dl.process_download`).

Python sources are embedded shallowly: strings stay strings, the filesystem
becomes an explicit association list from paths to byte contents, the remote
collaborators (mwclient `Site`/`Image`, requests) become oracle functions in an
`Env` record, exceptions become `Except`/sum results, and log side effects
relevant to the verified properties become explicit event lists.  Machine
integers in the SHA-1 computation are `Nat` reduced `% 2^32` where the source
overflows.  ASCII-only approximations (noted at each definition) are used for
Python's Unicode-aware `str.strip`, `\w` and case-insensitive matching.
-/

namespace Wikiget

/-! ## Global constants (`wikiget/__init__.py`) -/

/-- `BLOCKSIZE = 65536`, the read-block size used by `verify_hash`. -/
def BLOCKSIZE : Nat := 65536

/-- `CHUNKSIZE = 1024`, the streaming chunk size used by `download`. -/
def CHUNKSIZE : Nat := 1024

/-- `DEFAULT_SITE = "commons.wikimedia.org"`. -/
def DEFAULT_SITE : String := "commons.wikimedia.org"

/-! ## Batch reader (`parse.read_batch_file`) -/

/-- Python `str.strip` whitespace test, restricted to the ASCII whitespace
characters (space, tab, newline, carriage return, vertical tab, form feed). -/
def pyIsSpace (c : Char) : Bool :=
  c == ' ' || c == '\t' || c == '\n' || c == '\r' || c == '\x0b' || c == '\x0c'

/-- Python `str.strip()`: drop leading and trailing whitespace. -/
def pyStrip (s : String) : String :=
  String.mk (((s.data.dropWhile pyIsSpace).reverse.dropWhile pyIsSpace).reverse)

/-- Split a character list at every `\n`. -/
def splitNl (acc : List Char) : List Char → List String
  | [] => [String.mk acc.reverse]
  | '\n' :: rest => String.mk acc.reverse :: splitNl [] rest
  | c :: rest => splitNl (c :: acc) rest

/-- Split a file's text into the lines produced by Python file-line iteration:
each line ends after a `\n`; a final fragment without a trailing `\n` is still a
line; the terminating `\n` of a complete file does not create an extra empty
line.  (The trailing `\n` kept by Python on each line is dropped here, which is
harmless because `read_batch_file` strips every line.) -/
def linesOf (text : String) : List String :=
  let parts := splitNl [] text.data
  match parts.getLast? with
  | some s => if s.data.isEmpty then parts.dropLast else parts
  | none => parts

/-- Python `line_s.startswith("#")`. -/
def startsHash (s : String) : Bool := s.data.head? == some '#'

/-- The line-numbering loop of `read_batch_file`: `enumerate(fd, start=1)`,
strip each line, keep it (keyed by its 1-based position in the original file)
unless it is empty after stripping or starts with `#`. -/
def readBatchGo : Nat → List String → List (Nat × String)
  | _, [] => []
  | n, l :: ls =>
    let t := pyStrip l
    if t ≠ "" && !startsHash t then (n, t) :: readBatchGo (n + 1) ls
    else readBatchGo (n + 1) ls

/-- `parse.read_batch_file`, acting on the already-read list of input lines
(the `fileinput.input` iteration).  The returned association list is the
insertion-ordered `dict[int, str]` built by the source. -/
def read_batch_file (lines : List String) : List (Nat × String) :=
  readBatchGo 1 lines

/-! ## Integrity verifier (`validations.verify_hash`)

`hashlib.sha1` is the standard SHA-1 function (FIPS 180-4); it is embedded
here over byte lists, with 32-bit words represented as `Nat` reduced mod
`2^32`. -/

/-- `2^32`, the word modulus of SHA-1. -/
def M32 : Nat := 4294967296

/-- Left-rotation of a 32-bit word (values `< 2^32`). -/
def rotl (n x : Nat) : Nat := ((x <<< n) % M32) ||| (x >>> (32 - n))

/-- The SHA-1 round function `f_t(b, c, d)`. -/
def sha1f (t b c d : Nat) : Nat :=
  if t < 20 then (b &&& c) ||| ((b ^^^ (M32 - 1)) &&& d)
  else if t < 40 then b ^^^ c ^^^ d
  else if t < 60 then (b &&& c) ||| (b &&& d) ||| (c &&& d)
  else b ^^^ c ^^^ d

/-- The SHA-1 round constants `K_t`. -/
def sha1k (t : Nat) : Nat :=
  if t < 20 then 0x5A827999
  else if t < 40 then 0x6ED9EBA1
  else if t < 60 then 0x8F1BBCDC
  else 0xCA62C1D6

/-- Big-endian assembly of 32-bit words from bytes. -/
def bytesToWords : List Nat → List Nat
  | a :: b :: c :: d :: rest => (((a * 256 + b) * 256 + c) * 256 + d) :: bytesToWords rest
  | _ => []

/-- Message-schedule expansion: extend the 16 block words to 80. -/
def sha1Schedule (w16 : List Nat) : List Nat :=
  (List.range 64).foldl
    (fun w _ =>
      let n := w.length
      w ++ [rotl 1 ((w.getD (n - 3) 0) ^^^ (w.getD (n - 8) 0) ^^^
                    (w.getD (n - 14) 0) ^^^ (w.getD (n - 16) 0))])
    w16

/-- The five-word SHA-1 chaining state. -/
structure Sha1State where
  a : Nat
  b : Nat
  c : Nat
  d : Nat
  e : Nat
deriving Repr, DecidableEq

/-- The initial SHA-1 chaining state `H0`. -/
def sha1Init : Sha1State :=
  ⟨0x67452301, 0xEFCDAB89, 0x98BADCFE, 0x10325476, 0xC3D2E1F0⟩

/-- One SHA-1 compression of a 64-byte block into the chaining state. -/
def sha1Compress (h : Sha1State) (block : List Nat) : Sha1State :=
  let ws := sha1Schedule (bytesToWords block)
  let fin := ws.enum.foldl
    (fun (s : Sha1State) (tw : Nat × Nat) =>
      let tmp := (rotl 5 s.a + sha1f tw.1 s.b s.c s.d + s.e + sha1k tw.1 + tw.2) % M32
      ⟨tmp, s.a, rotl 30 s.b, s.c, s.d⟩)
    h
  ⟨(h.a + fin.a) % M32, (h.b + fin.b) % M32, (h.c + fin.c) % M32,
   (h.d + fin.d) % M32, (h.e + fin.e) % M32⟩

/-- `n`-byte big-endian encoding of a value. -/
def beBytes (n v : Nat) : List Nat :=
  (List.range n).map (fun i => v >>> ((n - 1 - i) * 8) % 256)

/-- SHA-1 padding: append `0x80`, zero-pad to 56 mod 64, then the 8-byte
big-endian bit length. -/
def sha1Pad (msg : List Nat) : List Nat :=
  let zeros := (56 + 64 - (msg.length + 1) % 64) % 64
  msg ++ [0x80] ++ List.replicate zeros 0 ++ beBytes 8 (msg.length * 8)

/-- Split a list into consecutive chunks of `n` elements (the last chunk may be
shorter).  Defined with an explicit fuel bound so that it reduces in the
kernel; `chunks` instantiates the fuel with the list length, which suffices
whenever `0 < n`. -/
def chunksGo (fuel n : Nat) : List α → List (List α)
  | [] => []
  | l@(_ :: _) =>
    match fuel with
    | 0 => []
    | fuel + 1 => l.take n :: chunksGo fuel n (l.drop n)

/-- Split a list into consecutive chunks of `n` elements. -/
def chunks (n : Nat) (l : List α) : List (List α) := chunksGo l.length n l

/-- A nibble as a lowercase hexadecimal character. -/
def hexDigitChar (n : Nat) : Char :=
  if n < 10 then Char.ofNat (48 + n) else Char.ofNat (87 + n)

/-- A 32-bit word as 8 lowercase hexadecimal characters. -/
def wordHex (w : Nat) : String :=
  String.mk ((List.range 8).map (fun i => hexDigitChar (w >>> ((7 - i) * 4) % 16)))

/-- `hashlib.sha1(msg).hexdigest()`: pad, compress each 64-byte block, and
print the final state in hex. -/
def sha1hex (msg : List Nat) : String :=
  let h := (chunks 64 (sha1Pad msg)).foldl sha1Compress sha1Init
  wordHex h.a ++ wordHex h.b ++ wordHex h.c ++ wordHex h.d ++ wordHex h.e

/-- `validations.verify_hash`, acting on the destination file's byte content:
the source reads the file in `BLOCKSIZE` blocks, feeding each block to the
incremental hasher (whose state is the sequence of bytes fed so far), and
returns the final hex digest. -/
def verify_hash (content : List Nat) : String :=
  sha1hex ((chunks BLOCKSIZE content).foldl (fun acc b => acc ++ b) [])

/-- The bytes of an ASCII string. -/
def asciiBytes (s : String) : List Nat := s.data.map Char.toNat

/-! ## URL parsing (`urllib.parse.urlparse`, as used by `parse.get_dest`)

`get_dest` only reads `url.netloc` and `url.path`, so only that projection of
`urlparse` is embedded: optional scheme removal, `//netloc` extraction,
fragment/query removal, and the params split on the last path segment. -/

/-- A character allowed in a URL scheme (`scheme_chars`). -/
def schemeChar (c : Char) : Bool :=
  c.isAlpha || c.isDigit || c == '+' || c == '-' || c == '.'

/-- Strip a leading `scheme:` when the text before the first `:` is a valid
scheme (first character an ASCII letter, all characters scheme characters). -/
def splitScheme (cs : List Char) : List Char :=
  match cs.findIdx? (· == ':') with
  | some i =>
    if 0 < i && (cs.headD ' ').isAlpha && (cs.take i).all schemeChar then
      cs.drop (i + 1)
    else cs
  | none => cs

/-- Extract `netloc` when the (scheme-stripped) URL starts with `//`: the
netloc runs to the first `/`, `?` or `#`; the rest (delimiter included when it
is `/`) remains for the path. -/
def splitNetloc (cs : List Char) : List Char × List Char :=
  match cs with
  | '/' :: '/' :: rest =>
    let n := rest.takeWhile (fun c => !(c == '/' || c == '?' || c == '#'))
    (n, rest.drop n.length)
  | _ => ([], cs)

/-- Index of the first character satisfying `p` at or after `start`. -/
def findIdxFrom (p : Char → Bool) (start : Nat) (cs : List Char) : Option Nat :=
  ((cs.drop start).findIdx? p).map (· + start)

/-- Index of the last occurrence of `c`. -/
def lastIdxOf (c : Char) (cs : List Char) : Option Nat :=
  (cs.reverse.findIdx? (· == c)).map (fun i => cs.length - 1 - i)

/-- `urllib.parse._splitparams` applied when the path contains a `;`: a params
suffix is split off the last path segment only. -/
def splitParams (cs : List Char) : List Char :=
  if cs.contains ';' then
    if cs.contains '/' then
      match findIdxFrom (· == ';') ((lastIdxOf '/' cs).getD 0) cs with
      | some i => cs.take i
      | none => cs
    else cs.take (((cs.findIdx? (· == ';')).getD cs.length))
  else cs

/-- The `(netloc, path)` projection of `urllib.parse.urlparse`. -/
def urlNetlocPath (url : String) : String × String :=
  let rest := splitScheme url.data
  let (netloc, rest) := splitNetloc rest
  let path := rest.takeWhile (fun c => !(c == '#' || c == '?'))
  (String.mk netloc, String.mk (splitParams path))

/-! ## Percent-decoding (`urllib.parse.unquote`, as used by `get_dest`) -/

/-- A hexadecimal digit, as accepted in a `%XX` escape. -/
def isHexDigit (c : Char) : Bool :=
  c.isDigit || ('a' ≤ c && c ≤ 'f') || ('A' ≤ c && c ≤ 'F')

/-- The value of a hexadecimal digit. -/
def hexVal (c : Char) : Nat :=
  if c.isDigit then c.toNat - 48
  else if 'a' ≤ c then c.toNat - 87
  else c.toNat - 55

/-- The U+FFFD replacement character emitted for malformed UTF-8
(`errors="replace"`). -/
def repChar : Char := Char.ofNat 65533

/-- A UTF-8 continuation byte. -/
def utf8Cont (b : Nat) : Bool := 128 ≤ b && b ≤ 191

/-- UTF-8 decoding of a byte list with replacement on malformed input, with an
explicit fuel bound (instantiated with the list length) so that it reduces in
the kernel. -/
def utf8Go : Nat → List Nat → List Char
  | 0, _ => []
  | _ + 1, [] => []
  | fuel + 1, b :: bs =>
    if b < 128 then Char.ofNat b :: utf8Go fuel bs
    else if 194 ≤ b && b ≤ 223 then
      match bs with
      | b2 :: bs2 =>
        if utf8Cont b2 then Char.ofNat ((b - 192) * 64 + (b2 - 128)) :: utf8Go fuel bs2
        else repChar :: utf8Go fuel bs
      | [] => [repChar]
    else if 224 ≤ b && b ≤ 239 then
      match bs with
      | b2 :: b3 :: bs3 =>
        if utf8Cont b2 && utf8Cont b3 &&
           !(b == 224 && b2 < 160) && !(b == 237 && 160 ≤ b2) then
          Char.ofNat ((b - 224) * 4096 + (b2 - 128) * 64 + (b3 - 128)) :: utf8Go fuel bs3
        else repChar :: utf8Go fuel bs
      | _ => [repChar]
    else if 240 ≤ b && b ≤ 244 then
      match bs with
      | b2 :: b3 :: b4 :: bs4 =>
        if utf8Cont b2 && utf8Cont b3 && utf8Cont b4 &&
           !(b == 240 && b2 < 144) && !(b == 244 && 144 ≤ b2) then
          Char.ofNat ((b - 240) * 262144 + (b2 - 128) * 4096 + (b3 - 128) * 64 + (b4 - 128))
            :: utf8Go fuel bs4
        else repChar :: utf8Go fuel bs
      | _ => [repChar]
    else repChar :: utf8Go fuel bs

/-- UTF-8 decoding with replacement on malformed input. -/
def utf8Decode (bs : List Nat) : List Char := utf8Go bs.length bs

/-- The scanning loop of `unquote`: a `%` followed by two hex digits
contributes a byte to the pending byte run; any other character flushes the
pending run through the UTF-8 decoder and is kept as-is; a `%` not followed by
two hex digits is kept literally. -/
def unquoteGo : Nat → List Char → List Nat → List Char
  | 0, _, pend => utf8Decode pend.reverse
  | _ + 1, [], pend => utf8Decode pend.reverse
  | fuel + 1, '%' :: rest, pend =>
    (match rest with
     | h1 :: h2 :: rest2 =>
       if isHexDigit h1 && isHexDigit h2 then
         unquoteGo fuel rest2 ((hexVal h1 * 16 + hexVal h2) :: pend)
       else utf8Decode pend.reverse ++ '%' :: unquoteGo fuel rest []
     | _ => utf8Decode pend.reverse ++ '%' :: unquoteGo fuel rest [])
  | fuel + 1, c :: rest, pend => utf8Decode pend.reverse ++ c :: unquoteGo fuel rest []

/-- `urllib.parse.unquote` with its default UTF-8 decoding.  The fuel bound
(the input length) is an upper bound on the scanning steps. -/
def unquote (s : String) : String := String.mk (unquoteGo s.data.length s.data [])

/-! ## File-name validation (`validations.valid_file`)

The source matches `re.compile(r"(File:|Image:)([^/\r\n\t\f\v]+\.\w+)$", re.I)`
with `.search`: the pattern is anchored at the end of the string only (`$` also
matches just before a final newline), and the leftmost start position wins.
`\w` and the case-insensitive prefixes are modelled on their ASCII subsets. -/

/-- A character excluded from the regex body class `[^/\r\n\t\f\v]`. -/
def badBodyChar (c : Char) : Bool :=
  c == '/' || c == '\r' || c == '\n' || c == '\t' || c == '\x0c' || c == '\x0b'

/-- A regex word character `\w` (ASCII subset). -/
def isWordChar (c : Char) : Bool := c.isAlphanum || c == '_'

/-- Full match of the regex body `[^/\r\n\t\f\v]+\.\w+` against a character
list: some dot position splits it into a nonempty prefix of permitted
characters and a nonempty suffix of word characters. -/
def bodyOK (cs : List Char) : Bool :=
  (List.range cs.length).any fun i =>
    decide (1 ≤ i) && decide (i + 1 < cs.length) &&
    cs.getD i ' ' == '.' &&
    (cs.take i).all (fun c => !badBodyChar c) &&
    (cs.drop (i + 1)).all isWordChar

/-- The characters of the `File:` prefix, lowercased. -/
def fileKw : List Char := ['f', 'i', 'l', 'e', ':']

/-- The characters of the `Image:` prefix, lowercased. -/
def imageKw : List Char := ['i', 'm', 'a', 'g', 'e', ':']

/-- Match the whole pattern at the current position: a case-insensitive
`File:` or `Image:` prefix whose remainder (running to the end of the string)
matches the body.  Returns the body (regex group 2); group 1, the prefix, is
never empty on a match, which is what `get_dest`'s `file_match.group(1)` test
checks. -/
def matchHere (cs : List Char) : Option (List Char) :=
  if (cs.take 5).map Char.toLower == fileKw && bodyOK (cs.drop 5) then
    some (cs.drop 5)
  else if (cs.take 6).map Char.toLower == imageKw && bodyOK (cs.drop 6) then
    some (cs.drop 6)
  else none

/-- `re.search`: try each start position from the left. -/
def searchFile : List Char → Option (List Char)
  | [] => none
  | c :: rest =>
    match matchHere (c :: rest) with
    | some g2 => some g2
    | none => searchFile rest

/-- `validations.valid_file`, returning group 2 of the match (the file name
with extension) or `none`.  The `$` anchor may match just before a final
newline, hence the initial trailing-newline drop. -/
def valid_file (s : String) : Option String :=
  let cs := if s.data.getLast? == some '\n' then s.data.dropLast else s.data
  (searchFile cs).map String.mk

/-! ## Target resolver (`parse.get_dest`) -/

/-- The CLI options consumed by the orchestration core (`argparse.Namespace`).
`site`, `username` and `password` have string defaults in `construct_parser`;
`site = none` models the un-passed option, whose value *is* (object identity)
`wikiget.DEFAULT_SITE`, while `some s` models an explicitly passed option,
always a distinct object even when equal as a value.  `output` defaults to
`None`. -/
structure Args where
  site : Option String := none
  output : Option String := none
  force : Bool := false
  dry_run : Bool := false
  username : Option String := none
  password : Option String := none
deriving Repr, DecidableEq

/-- Python truthiness of an optional string (`None` and `""` are falsy). -/
def truthy (o : Option String) : Bool :=
  match o with
  | some s => !s.data.isEmpty
  | none => false

/-- Python `a or b` for an optional string `a`. -/
def orElseStr (a : Option String) (b : String) : String :=
  match a with
  | some s => if s.data.isEmpty then b else s
  | none => b

/-- The resolved target (`file.File`).  The constructor defaults mirror
`File.__init__`: a falsy `dest` falls back to `name`, a falsy `site` to
`DEFAULT_SITE`.  The `image` attribute is added separately by `prep_download`. -/
structure File where
  name : String
  dest : String
  site : String
deriving Repr, DecidableEq

/-- `File(filename, dest, site_name)` with the `__init__` fallbacks. -/
def File.make (name dest site : String) : File :=
  ⟨name, if dest.data.isEmpty then name else dest,
   if site.data.isEmpty then DEFAULT_SITE else site⟩

/-- The failure of `get_dest` (`wikiget/exceptions.py` `ParseError`, a plain
`Exception` subclass carrying a message naming the raw input; the module is
absent from this snapshot, so the error is modelled as a constructor tagged
with that input). -/
inductive GetDestError
  | parseError (input : String)
deriving Repr, DecidableEq

/-- `parse.get_dest`.  Besides the parse result, the Boolean records whether
the `"Target is a URL; ignoring site specified with --site"` warning was
logged; the source guards it with `args.site is not wikiget.DEFAULT_SITE`,
i.e. with the option having been explicitly passed (`Option.isSome`),
regardless of its value. -/
def get_dest (dl : String) (args : Args) : Except GetDestError File × Bool :=
  let np := urlNetlocPath dl
  let isUrl := !np.1.data.isEmpty
  let filename0 := if isUrl then np.2 else dl
  let site_name := if isUrl then np.1 else args.site.getD DEFAULT_SITE
  let warned := isUrl && args.site.isSome
  match valid_file filename0 with
  | some g2 =>
    let filename := unquote g2
    (.ok (File.make filename (orElseStr args.output filename) site_name), warned)
  | none => (.error (.parseError dl), warned)

deriving instance DecidableEq for Except

/-! ## External collaborators and filesystem state

`dl.py` talks to mwclient/requests and to the local disk.  The remote side is
modelled as oracle functions in an `Env`; the disk as an association list from
paths to byte contents. -/

/-- The exception classes caught by `dl.py` around `connect_to_site` and
`query_api`: `requests.ConnectionError`, `requests.HTTPError`,
`mwclient.InvalidResponse`, `mwclient.LoginError`, `mwclient.APIError`. -/
inductive NetError
  | connectionError
  | httpError
  | invalidResponse
  | loginError
  | apiError
deriving Repr, DecidableEq

/-- The `imageinfo` fields read by `download`. -/
structure ImageInfo where
  url : String
  size : Nat
  sha1 : String
deriving Repr, DecidableEq

/-- An `mwclient.image.Image`: `query_api` always returns one, but its
`imageinfo` is empty (`none`) when the site has no such file. -/
structure Image where
  imageinfo : Option ImageInfo
deriving Repr, DecidableEq

/-- The filesystem: existing file paths with their byte contents. -/
abbrev Fs := List (String × List Nat)

/-- `Path.is_file()` on the modelled filesystem. -/
def fsHas (fs : Fs) (p : String) : Bool := fs.any (·.1 == p)

/-- Create or overwrite a file (`dest.open("wb")` followed by the writes). -/
def fsSet (fs : Fs) (p : String) (content : List Nat) : Fs :=
  (p, content) :: fs.filter (·.1 != p)

/-- The remote and local-I/O collaborators as oracles:
`connectOk site` is the outcome of `mwclient.Site(...)` (plus the login
attempted inside `connect_to_site` when credentials are set); `queryResult
name site` the outcome of `site.images[name]`; `remoteBytes url` the bytes
streamed by `site.connection.get(url, stream=True)`; `writeFails dest` /
`readFails dest` whether local I/O raises `OSError` during the transfer write
or the verification re-read. -/
structure Env where
  connectOk : String → Option NetError
  queryResult : String → String → Except NetError Image
  remoteBytes : String → List Nat
  writeFails : String → Bool
  readFails : String → Bool

/-- One call of `connect_to_site`: the host connected to, and whether a login
was attempted (`args.username and args.password` both truthy). -/
structure ConnectEvent where
  host : String
  login : Bool
deriving Repr, DecidableEq

/-! ## Prepare step (`dl.prep_download`) -/

/-- The exceptions `prep_download` can raise into its callers: `ParseError`
from `get_dest`, `FileExistsError` from the overwrite guard, or one of the
network exception classes from `connect_to_site` / `query_api`. -/
inductive PrepError
  | parse (input : String)
  | alreadyExists (dest : String)
  | net (e : NetError)
deriving Repr, DecidableEq

/-- A `File` whose `image` attribute has been filled in by `prep_download`. -/
structure Prepped where
  file : File
  image : Image
deriving Repr, DecidableEq

/-- Whether `connect_to_site` would attempt a login. -/
def attemptsLogin (args : Args) : Bool :=
  truthy args.username && truthy args.password

/-- `dl.prep_download`: resolve the target, fail fast with `FileExistsError`
when the destination exists and `--force` is not set, then connect to the site
and query the image.  Besides the result it returns the `connect_to_site`
calls made and the total number of collaborator (network) calls. -/
def prep_download (dl : String) (args : Args) (env : Env) (fs : Fs) :
    Except PrepError Prepped × List ConnectEvent × Nat :=
  match (get_dest dl args).1 with
  | .error (.parseError i) => (.error (.parse i), [], 0)
  | .ok file =>
    if fsHas fs file.dest && !args.force then
      (.error (.alreadyExists file.dest), [], 0)
    else
      let ev := [ConnectEvent.mk file.site (attemptsLogin args)]
      match env.connectOk file.site with
      | some e => (.error (.net e), ev, 1)
      | none =>
        match env.queryResult file.name file.site with
        | .error e => (.error (.net e), ev, 2)
        | .ok img => (.ok ⟨file, img⟩, ev, 2)

/-! ## Transfer step (`dl.download`) -/

/-- The terminal classification of one `download` call, one constructor per
return path of the source function. -/
inductive Outcome
  | success
  | dryRun
  | notFound
  | writeFailure
  | verifyFailure
  | hashMismatch
deriving Repr, DecidableEq

/-- The per-outcome error contribution of `download`. -/
def Outcome.errors : Outcome → Nat
  | .success => 0
  | .dryRun => 0
  | _ => 1

/-- The result of one `download` call: its returned error count, the
filesystem afterwards, and the number of bytes streamed from the remote. -/
structure DownloadResult where
  errors : Nat
  fs : Fs
  bytesTransferred : Nat
  outcome : Outcome
deriving Repr, DecidableEq

/-- `dl.download`: with file info present, a dry run skips the transfer
entirely; otherwise the remote bytes are streamed into the destination
(`OSError` → `WriteFailure`, leaving the truncated file opened by
`dest.open("wb")`), re-read for verification (`OSError` → `VerifyFailure`),
and the SHA-1 of the written content is compared with the declared hash.
Without file info the target is reported as not a valid file.  Each failing
path returns error count 1. -/
def download (p : Prepped) (args : Args) (env : Env) (fs : Fs) : DownloadResult :=
  match p.image.imageinfo with
  | some info =>
    if args.dry_run then ⟨0, fs, 0, .dryRun⟩
    else if env.writeFails p.file.dest then
      ⟨1, fsSet fs p.file.dest [], 0, .writeFailure⟩
    else
      let bytes := env.remoteBytes info.url
      let fs2 := fsSet fs p.file.dest bytes
      if env.readFails p.file.dest then ⟨1, fs2, bytes.length, .verifyFailure⟩
      else if verify_hash bytes == info.sha1 then ⟨0, fs2, bytes.length, .success⟩
      else ⟨1, fs2, bytes.length, .hashMismatch⟩
  | none => ⟨1, fs, 0, .notFound⟩

/-! ## Batch mode (`dl.batch_download`)

The thread pool is modelled at its default `--threads 1` semantics: entries
are prepared in file order and each submitted download runs to completion
before the next entry, the join-all barrier summing the futures' results. -/

/-- The classification of one failure log record emitted in batch mode. -/
inductive FailKind
  | parse
  | alreadyExists
  | connectClass
  | notFound
  | writeFailure
  | verifyFailure
  | hashMismatch
deriving Repr, DecidableEq

/-- One failure log record: its kind and the batch line number included in the
message, when the source includes one (`ParseError` is logged as
`"%s (line %i)"` and the connection classes as `"Unable to download '%s'
(line %i) ..."`, both with the line; `FileExistsError` is logged as the bare
exception message, and the `download`-stage messages are prefixed with the
file name by `FileLogAdapter` — neither carries a line number). -/
structure FailLog where
  kind : FailKind
  line : Option Nat
deriving Repr, DecidableEq

/-- The line-number field the batch loop's logging gives a failure of each
kind: `ParseError` and the connection classes are logged with the entry's
line number, the others without one. -/
def expectedLine (k : FailKind) (n : Nat) : Option Nat :=
  match k with
  | .parse => some n
  | .connectClass => some n
  | _ => none

/-- The failure log records produced inside `download` for one entry. -/
def outcomeFailLog : Outcome → List FailLog
  | .success => []
  | .dryRun => []
  | .notFound => [⟨.notFound, none⟩]
  | .writeFailure => [⟨.writeFailure, none⟩]
  | .verifyFailure => [⟨.verifyFailure, none⟩]
  | .hashMismatch => [⟨.hashMismatch, none⟩]

/-- The result of processing one batch entry. -/
structure EntryResult where
  errors : Nat
  fs : Fs
  events : List ConnectEvent
  flogs : List FailLog
deriving Repr, DecidableEq

/-- One iteration of the `batch_download` loop body for the entry
`(line_num, line)`: each `prep_download` exception is caught, logged and
counted as one error; a successful prep submits `download`, whose returned
error count joins the total. -/
def processEntry (args : Args) (env : Env) (fs : Fs) (e : Nat × String) : EntryResult :=
  match prep_download e.2 args env fs with
  | (.error (.parse _), ev, _) => ⟨1, fs, ev, [⟨.parse, some e.1⟩]⟩
  | (.error (.alreadyExists _), ev, _) => ⟨1, fs, ev, [⟨.alreadyExists, none⟩]⟩
  | (.error (.net _), ev, _) => ⟨1, fs, ev, [⟨.connectClass, some e.1⟩]⟩
  | (.ok p, ev, _) =>
    let d := download p args env fs
    ⟨d.errors, d.fs, ev, outcomeFailLog d.outcome⟩

/-- The accumulated result of a batch run: total error count, final
filesystem, all `connect_to_site` calls, all failure logs, and the line
numbers of the entries that were attempted, in order. -/
structure BatchResult where
  errors : Nat
  fs : Fs
  events : List ConnectEvent
  flogs : List FailLog
  attempted : List Nat
deriving Repr, DecidableEq

/-- One step of the `batch_download` loop: process the next entry against the
accumulated state. -/
def batchStep (args : Args) (env : Env) (acc : BatchResult) (e : Nat × String) :
    BatchResult :=
  let r := processEntry args env acc.fs e
  ⟨acc.errors + r.errors, r.fs, acc.events ++ r.events,
   acc.flogs ++ r.flogs, acc.attempted ++ [e.1]⟩

/-- `dl.batch_download` over an already-parsed batch dictionary. -/
def batch_download (entries : List (Nat × String)) (args : Args) (env : Env)
    (fs : Fs) : BatchResult :=
  entries.foldl (batchStep args env) ⟨0, fs, [], [], []⟩

/-! ## Exit policy (`dl.process_download`, batch branch) -/

/-- The pluralised `"problem%s"` suffix `"s"[: errors ^ 1]` of the batch
summary message: the slice is empty exactly when `errors ^ 1 == 0`, i.e. for
exactly one problem. -/
def pluralS (errors : Nat) : String := if errors ^^^ 1 = 0 then "" else "s"

/-- The outcome of the batch branch of `process_download`: the returned exit
code, and the summary warning (error count with its plural suffix), logged
only when the count is nonzero. -/
structure ProcessResult where
  exitCode : Nat
  summary : Option (Nat × String)
deriving Repr, DecidableEq

/-- The batch branch of `dl.process_download`: run `batch_download`; on a
nonzero error count, log the summary and exit 1, otherwise exit 0. -/
def process_download_batch (entries : List (Nat × String)) (args : Args)
    (env : Env) (fs : Fs) : ProcessResult :=
  let errors := (batch_download entries args env fs).errors
  if errors ≠ 0 then ⟨1, some (errors, pluralS errors)⟩ else ⟨0, none⟩

/-! ## Concrete collaborators used by witnesses and counterexamples -/

/-- Image metadata matching the byte string `"foobar"`. -/
def infoOk : ImageInfo :=
  ⟨"https://upload.wikimedia.org/foobar", 6,
   "8843d7f92416211de9ebb963ff4ce28125932878"⟩

/-- An environment in which every collaborator call succeeds and every remote
file is the byte string `"foobar"` with matching metadata. -/
def envOk : Env :=
  ⟨fun _ => none, fun _ _ => .ok ⟨some infoOk⟩, fun _ => asciiBytes "foobar",
   fun _ => false, fun _ => false⟩

/-! ## Supporting lemmas -/

/-- The dry-run return path of `download`: with file info present and
`args.dry_run` set, the function returns before any disk or network use. -/
theorem download_dry_run_skips (p : Prepped) (args : Args) (env : Env) (fs : Fs)
    (info : ImageInfo) (himg : p.image.imageinfo = some info)
    (hdry : args.dry_run = true) :
    download p args env fs = ⟨0, fs, 0, .dryRun⟩ := by
  unfold download
  rw [himg]
  simp [hdry]

/-! ## Claim C2 -/

/-- C2: for every download target whose destination path already exists on
disk and whose force flag is not set, `prep_download` fails with
`FileExistsError` and performs no network activity at all: no connection event
and zero collaborator calls. -/
theorem c2_already_exists_fails_before_network (dl : String) (args : Args)
    (env : Env) (fs : Fs) (file : File) (w : Bool)
    (hget : get_dest dl args = (.ok file, w))
    (hfs : fsHas fs file.dest = true)
    (hforce : args.force = false) :
    prep_download dl args env fs = (.error (.alreadyExists file.dest), [], 0) := by
  have h1 : (get_dest dl args).1 = .ok file := by rw [hget]
  unfold prep_download
  rw [h1]
  simp [hfs, hforce]

set_option maxRecDepth 100000 in
/-- C2 witness: `File:Example.jpg` with `Example.jpg` already on disk and no
force flag fails with `FileExistsError` and zero collaborator calls. -/
theorem c2_witness :
    prep_download "File:Example.jpg" {} envOk [("Example.jpg", [])] =
      (.error (.alreadyExists "Example.jpg"), [], 0) :=
  c2_already_exists_fails_before_network "File:Example.jpg" {} envOk
    [("Example.jpg", [])] ⟨"Example.jpg", "Example.jpg", DEFAULT_SITE⟩ false
    (by decide) (by decide) rfl

/-! ## Claim C3 -/

set_option maxRecDepth 100000 in
/-- C3 counterexample: for the URL
`https://en.wikipedia.org/wiki/File:Example.jpg` together with the explicit
option `--site en.wikipedia.org`, the explicit site equals the derived host,
yet the conflicting-site warning is emitted (second component `true`),
refuting the claim that no warning is emitted when they are equal. -/
theorem c3_counterexample :
    get_dest "https://en.wikipedia.org/wiki/File:Example.jpg"
        { site := some "en.wikipedia.org" } =
      (.ok ⟨"Example.jpg", "Example.jpg", "en.wikipedia.org"⟩, true)
    ∧ ({ site := some "en.wikipedia.org" } : Args).site = some "en.wikipedia.org" := by
  exact ⟨by decide, rfl⟩

/-- C3 (amended): for every input with a non-empty URL host, the resolved
site is the URL host regardless of any explicit site option, and the warning
is emitted exactly when a site option was explicitly passed (the source's
`args.site is not wikiget.DEFAULT_SITE` object-identity test), regardless of
whether its value differs from the derived host. -/
theorem c3_url_host_wins_warning_iff_site_passed (dl : String) (args : Args)
    (hurl : (urlNetlocPath dl).1.data.isEmpty = false) :
    (get_dest dl args).2 = args.site.isSome
    ∧ ∀ f w, get_dest dl args = (.ok f, w) → f.site = (urlNetlocPath dl).1 := by
  cases hv : valid_file (urlNetlocPath dl).2 with
  | none =>
    constructor
    · simp [get_dest, hurl, hv]
    · intro f w hfw
      simp [get_dest, hurl, hv] at hfw
  | some g2 =>
    constructor
    · simp [get_dest, hurl, hv]
    · intro f w hfw
      simp [get_dest, hurl, hv, File.make] at hfw
      rw [← hfw.1]

set_option maxRecDepth 100000 in
/-- C3 witness: a URL target with an explicitly passed (and different) site
option instantiates the amended statement. -/
theorem c3_witness :
    (get_dest "https://commons.wikimedia.org/wiki/File:Example.jpg"
        { site := some "meta.wikimedia.org" }).2 =
      ({ site := some "meta.wikimedia.org" } : Args).site.isSome
    ∧ ∀ f w, get_dest "https://commons.wikimedia.org/wiki/File:Example.jpg"
          { site := some "meta.wikimedia.org" } = (.ok f, w) →
        f.site = (urlNetlocPath "https://commons.wikimedia.org/wiki/File:Example.jpg").1 :=
  c3_url_host_wins_warning_iff_site_passed
    "https://commons.wikimedia.org/wiki/File:Example.jpg"
    { site := some "meta.wikimedia.org" } (by decide)

/-! ## Claim C6 -/

/-- Membership in the batch-reader loop's output, started at counter `k`:
exactly the stripped nonempty non-comment lines, keyed by their position in
the original input. -/
theorem readBatchGo_mem (ls : List String) : ∀ (k m : Nat) (s : String),
    (m, s) ∈ readBatchGo k ls ↔
      ∃ j raw, ls[j]? = some raw ∧ m = k + j ∧ pyStrip raw = s
        ∧ s ≠ "" ∧ startsHash s = false := by
  induction ls with
  | nil => intro k m s; simp [readBatchGo]
  | cons l ls ih =>
    intro k m s
    by_cases hc : (pyStrip l ≠ "" && !startsHash (pyStrip l)) = true
    · have hc' : pyStrip l ≠ "" ∧ startsHash (pyStrip l) = false := by
        simpa using hc
      simp only [readBatchGo, hc, if_true, List.mem_cons]
      constructor
      · rintro (heq | hmem)
        · have hm : m = k := congrArg Prod.fst heq
          have hs : s = pyStrip l := congrArg Prod.snd heq
          subst hs
          exact ⟨0, l, by simp, by omega, rfl, hc'.1, hc'.2⟩
        · obtain ⟨j, raw, hj, hm, hstrip, hne, hhash⟩ := (ih (k + 1) m s).mp hmem
          exact ⟨j + 1, raw, by simpa using hj, by omega, hstrip, hne, hhash⟩
      · rintro ⟨j, raw, hj, hm, hstrip, hne, hhash⟩
        cases j with
        | zero =>
          left
          simp only [List.getElem?_cons_zero, Option.some.injEq] at hj
          subst hj
          simp [Prod.ext_iff, hstrip]
          omega
        | succ j =>
          right
          refine (ih (k + 1) m s).mpr ⟨j, raw, by simpa using hj, by omega, hstrip, hne, hhash⟩
    · simp only [readBatchGo, hc, if_false]
      constructor
      · intro hmem
        obtain ⟨j, raw, hj, hm, hstrip, hne, hhash⟩ := (ih (k + 1) m s).mp hmem
        exact ⟨j + 1, raw, by simpa using hj, by omega, hstrip, hne, hhash⟩
      · rintro ⟨j, raw, hj, hm, hstrip, hne, hhash⟩
        cases j with
        | zero =>
          simp only [List.getElem?_cons_zero, Option.some.injEq] at hj
          subst hj
          rw [hstrip] at hc
          simp [hne, hhash] at hc
        | succ j =>
          exact (ih (k + 1) m s).mpr ⟨j, raw, by simpa using hj, by omega, hstrip, hne, hhash⟩

set_option maxRecDepth 100000 in
/-- C6: the batch reader maps 1-based original line numbers (gaps included)
to trimmed contents, omitting exactly the lines that are empty after trimming
or start with `#`; in particular the four-line example text yields exactly
lines 1 and 4. -/
theorem c6_batch_reader_mapping :
    (∀ (lines : List String) (n : Nat) (s : String),
      (n, s) ∈ read_batch_file lines ↔
        ∃ j raw, lines[j]? = some raw ∧ n = 1 + j ∧ pyStrip raw = s
          ∧ s ≠ "" ∧ startsHash s = false)
    ∧ read_batch_file (linesOf "File:Foo.jpg\n\n#File:Bar.jpg\nFile:Baz.jpg\n") =
        [(1, "File:Foo.jpg"), (4, "File:Baz.jpg")] :=
  ⟨fun lines n s => readBatchGo_mem lines 1 n s, by decide⟩

/-! ## Claim C7 -/

/-- Folding list concatenation over chunks, starting from `acc`, appends the
joined chunks. -/
theorem foldl_append_eq {α : Type} (ls : List (List α)) (acc : List α) :
    ls.foldl (fun a b => a ++ b) acc = acc ++ ls.flatten := by
  induction ls generalizing acc with
  | nil => simp
  | cons h t ih => simp [ih, List.append_assoc]

/-- Joining the chunks of a list recovers the list (for positive chunk size
and sufficient fuel). -/
theorem chunksGo_join {α : Type} : ∀ (fuel n : Nat) (l : List α),
    l.length ≤ fuel → 0 < n → (chunksGo fuel n l).flatten = l := by
  intro fuel
  induction fuel with
  | zero =>
    intro n l hl _
    have : l = [] := List.length_eq_zero.mp (Nat.le_zero.mp hl)
    subst this
    simp [chunksGo]
  | succ fuel ih =>
    intro n l hl hn
    cases l with
    | nil => simp [chunksGo]
    | cons c cs =>
      have hd : ((c :: cs).drop n).length ≤ fuel := by
        simp only [List.length_drop, List.length_cons]
        simp only [List.length_cons] at hl
        omega
      calc (chunksGo (fuel + 1) n (c :: cs)).flatten
          = (c :: cs).take n ++ (chunksGo fuel n ((c :: cs).drop n)).flatten := by
            simp [chunksGo]
        _ = (c :: cs).take n ++ (c :: cs).drop n := by rw [ih n _ hd hn]
        _ = c :: cs := List.take_append_drop n (c :: cs)

/-- Streaming the content through the hasher in `BLOCKSIZE` blocks hashes the
whole content. -/
theorem verify_hash_eq_sha1 (content : List Nat) :
    verify_hash content = sha1hex content := by
  unfold verify_hash chunks
  rw [foldl_append_eq, List.nil_append,
    chunksGo_join content.length BLOCKSIZE content le_rfl (by decide)]

set_option maxRecDepth 100000 in
/-- C7: the integrity verifier is deterministic and idempotent (hashing twice
yields the same digest), the block-streamed digest equals the SHA-1 of the
whole content, and the byte string `"foobar"` hashes to the known digest. -/
theorem c7_verifier_deterministic_streams_sha1 :
    (∀ content : List Nat, verify_hash content = verify_hash content
      ∧ verify_hash content = sha1hex content)
    ∧ verify_hash (asciiBytes "foobar") =
        "8843d7f92416211de9ebb963ff4ce28125932878" :=
  ⟨fun content => ⟨rfl, verify_hash_eq_sha1 content⟩, by decide⟩

/-! ## Claim C8 -/

/-- C8: for every prepared target with remote metadata present, the dry-run
flag makes `download` finish with the `DryRun` outcome, zero errors, an
unchanged filesystem and zero transferred bytes. -/
theorem c8_dry_run_outcome (p : Prepped) (args : Args) (env : Env) (fs : Fs)
    (info : ImageInfo) (himg : p.image.imageinfo = some info)
    (hdry : args.dry_run = true) :
    download p args env fs = ⟨0, fs, 0, .dryRun⟩ :=
  download_dry_run_skips p args env fs info himg hdry

/-- C8 witness: a concrete dry run leaves the one-file filesystem exactly as
it was and transfers nothing. -/
theorem c8_witness :
    download ⟨⟨"Example.jpg", "Example.jpg", DEFAULT_SITE⟩, ⟨some infoOk⟩⟩
        { dry_run := true } envOk [("other.jpg", [1, 2])] =
      ⟨0, [("other.jpg", [1, 2])], 0, .dryRun⟩ :=
  c8_dry_run_outcome ⟨⟨"Example.jpg", "Example.jpg", DEFAULT_SITE⟩, ⟨some infoOk⟩⟩
    { dry_run := true } envOk [("other.jpg", [1, 2])] infoOk rfl rfl

/-! ## Claim C10 -/

set_option maxRecDepth 200000 in
/-- C10: percent-decoding happens only after pattern validation:
`File:a%2Fb.jpg` is accepted and resolves to the name `a/b.jpg`, which
contains a path separator the validation pattern forbids, while
`File:Example%2Ejpg` (dot percent-encoded) is rejected with `ParseError`
although its decoded form would be valid. -/
theorem c10_decode_after_validation :
    (get_dest "File:a%2Fb.jpg" {}).1 = .ok ⟨"a/b.jpg", "a/b.jpg", DEFAULT_SITE⟩
    ∧ "a/b.jpg".data.contains '/' = true
    ∧ (get_dest "File:Example%2Ejpg" {}).1 =
        .error (.parseError "File:Example%2Ejpg") := by
  exact ⟨by decide, by decide, by decide⟩

/-! ## Claim C1 -/

/-- Entries whose parse and existence checks pass produce exactly one
`connect_to_site` call each, whatever the connect and query outcomes. -/
theorem processEntry_events_of_checks_pass (args : Args) (env : Env) (fs : Fs)
    (n : Nat) (dl : String) (f : File) (w : Bool)
    (hget : get_dest dl args = (.ok f, w))
    (hpass : (fsHas fs f.dest && !args.force) = false) :
    (processEntry args env fs (n, dl)).events = [⟨f.site, attemptsLogin args⟩] := by
  have h1 : (get_dest dl args).1 = .ok f := by rw [hget]
  simp only [processEntry, prep_download, h1, hpass]
  cases henv : env.connectOk f.site with
  | some e => simp
  | none =>
    cases hq : env.queryResult f.name f.site with
    | error e => simp
    | ok img => simp

set_option maxRecDepth 400000 in
/-- C1 counterexample: a two-entry batch whose entries both resolve to the
default host makes two connections to that host, refuting the claim that a
`site_host → SiteSession` mapping bounds the per-host connection count by
one. -/
theorem c1_counterexample :
    ¬(((batch_download [(1, "File:A.jpg"), (2, "File:B.jpg")] {} envOk []).events.filter
        (fun ev => ev.host == DEFAULT_SITE)).length ≤ 1) := by decide

/-- C1 (amended): `batch_download` maintains no session cache: every batch
entry that passes parsing and the existence check triggers its own
`connect_to_site` call (with its own login attempt when credentials are set),
so two entries resolving to the same host make two connections to it. -/
theorem c1_connect_called_per_entry (args : Args) (env : Env) (fs : Fs)
    (n₁ n₂ : Nat) (dl₁ dl₂ : String) (f₁ f₂ : File) (w₁ w₂ : Bool)
    (hforce : args.force = true)
    (h1 : get_dest dl₁ args = (.ok f₁, w₁))
    (h2 : get_dest dl₂ args = (.ok f₂, w₂)) :
    (batch_download [(n₁, dl₁), (n₂, dl₂)] args env fs).events =
      [⟨f₁.site, attemptsLogin args⟩, ⟨f₂.site, attemptsLogin args⟩] := by
  have p1 : ∀ fs', (processEntry args env fs' (n₁, dl₁)).events =
      [⟨f₁.site, attemptsLogin args⟩] := fun fs' =>
    processEntry_events_of_checks_pass args env fs' n₁ dl₁ f₁ w₁ h1 (by simp [hforce])
  have p2 : ∀ fs', (processEntry args env fs' (n₂, dl₂)).events =
      [⟨f₂.site, attemptsLogin args⟩] := fun fs' =>
    processEntry_events_of_checks_pass args env fs' n₂ dl₂ f₂ w₂ h2 (by simp [hforce])
  simp [batch_download, batchStep, p1, p2]

set_option maxRecDepth 400000 in
/-- C1 witness: a forced two-entry batch over the default site makes exactly
the two connection events of the amended statement. -/
theorem c1_witness :
    (batch_download [(1, "File:A.jpg"), (2, "File:B.jpg")] { force := true }
        envOk []).events =
      [⟨"commons.wikimedia.org", false⟩, ⟨"commons.wikimedia.org", false⟩] :=
  c1_connect_called_per_entry { force := true } envOk [] 1 2 "File:A.jpg"
    "File:B.jpg" ⟨"A.jpg", "A.jpg", DEFAULT_SITE⟩ ⟨"B.jpg", "B.jpg", DEFAULT_SITE⟩
    false false rfl (by decide) (by decide)

/-! ## Claim C4 -/

/-- The transfer step's error count equals the length of its failure log,
every entry adds at most one error, and none of its failure logs carries a
line number or a prepare-stage kind. -/
theorem download_spec (p : Prepped) (args : Args) (env : Env) (fs : Fs) :
    (download p args env fs).errors =
      (outcomeFailLog (download p args env fs).outcome).length
    ∧ (download p args env fs).errors ≤ 1
    ∧ ∀ l ∈ outcomeFailLog (download p args env fs).outcome,
        l.line = none ∧ l.kind ≠ .parse ∧ l.kind ≠ .connectClass := by
  unfold download
  cases h : p.image.imageinfo with
  | none => simp [outcomeFailLog]
  | some info =>
    simp only []
    split_ifs <;> simp [outcomeFailLog]

/-- Kinds other than `parse` and `connectClass` are logged without a line
number. -/
theorem expectedLine_none (k : FailKind) (n : Nat)
    (h1 : k ≠ .parse) (h2 : k ≠ .connectClass) : expectedLine k n = none := by
  cases k <;> simp_all [expectedLine]

/-- One batch entry contributes exactly one error per failure log record, at
most one in total, and each of its failure logs carries exactly the
line-number field its kind is logged with. -/
theorem processEntry_spec (args : Args) (env : Env) (fs : Fs) (e : Nat × String) :
    (processEntry args env fs e).errors = (processEntry args env fs e).flogs.length
    ∧ (processEntry args env fs e).errors ≤ 1
    ∧ ∀ l ∈ (processEntry args env fs e).flogs, l.line = expectedLine l.kind e.1 := by
  rcases hp : prep_download e.2 args env fs with ⟨res, ev, c⟩
  cases res with
  | error err => cases err <;> simp [processEntry, hp, expectedLine]
  | ok p =>
    have hd := download_spec p args env fs
    simp only [processEntry, hp]
    refine ⟨hd.1, hd.2.1, fun l hl => ?_⟩
    obtain ⟨hline, hk1, hk2⟩ := hd.2.2 l hl
    rw [hline, expectedLine_none l.kind e.1 hk1 hk2]

/-- The batch fold appends one block of failure logs per processed entry,
counts exactly their number as errors, attempts every entry, and attributes
line numbers per `expectedLine`. -/
theorem batch_fold_spec (args : Args) (env : Env) :
    ∀ (entries : List (Nat × String)) (acc : BatchResult),
    ∃ L : List FailLog,
      (entries.foldl (batchStep args env) acc).flogs = acc.flogs ++ L
      ∧ (entries.foldl (batchStep args env) acc).errors = acc.errors + L.length
      ∧ (entries.foldl (batchStep args env) acc).attempted =
          acc.attempted ++ entries.map Prod.fst
      ∧ ∀ l ∈ L, ∃ n, n ∈ entries.map Prod.fst ∧ l.line = expectedLine l.kind n := by
  intro entries
  induction entries with
  | nil => intro acc; exact ⟨[], by simp, by simp, by simp, by simp⟩
  | cons e es ih =>
    intro acc
    obtain ⟨L, hf, he, ha, hl⟩ := ih (batchStep args env acc e)
    refine ⟨(processEntry args env acc.fs e).flogs ++ L, ?_, ?_, ?_, ?_⟩
    · rw [List.foldl_cons, hf]
      simp [batchStep, List.append_assoc]
    · rw [List.foldl_cons, he]
      have h1 := (processEntry_spec args env acc.fs e).1
      simp only [batchStep, List.length_append]
      omega
    · rw [List.foldl_cons, ha]
      simp [batchStep, List.append_assoc]
    · intro l hl'
      rcases List.mem_append.mp hl' with h | h
      · exact ⟨e.1, by simp, (processEntry_spec args env acc.fs e).2.2 l h⟩
      · obtain ⟨n, hn, hline⟩ := hl l h
        exact ⟨n, by simp [hn], hline⟩

set_option maxRecDepth 400000 in
/-- C4 counterexample: a one-entry batch whose destination already exists
fails and is counted, but its failure log record carries no line number,
refuting the claim that every per-entry failure is logged with its
originating line number. -/
theorem c4_counterexample :
    (batch_download [(3, "File:Example.jpg")] {} envOk [("Example.jpg", [])]).errors = 1
    ∧ (batch_download [(3, "File:Example.jpg")] {} envOk [("Example.jpg", [])]).flogs =
        [⟨.alreadyExists, none⟩]
    ∧ ((batch_download [(3, "File:Example.jpg")] {} envOk
          [("Example.jpg", [])]).flogs.all (fun l => l.line.isSome)) = false := by
  exact ⟨by decide, by decide, by decide⟩

/-- C4 (amended): in batch mode every per-entry failure at any stage is
caught at the entry boundary, adds exactly one to the error count (with at
most one error per entry), all remaining entries are still attempted, and the
aggregate equals the total number of per-entry failures; parse and
connection-class failures are logged with their originating line number,
while already-exists and transfer/verification failures are logged without
one. -/
theorem c4_batch_error_isolation_and_logging (entries : List (Nat × String))
    (args : Args) (env : Env) (fs : Fs) :
    (batch_download entries args env fs).attempted = entries.map Prod.fst
    ∧ (batch_download entries args env fs).errors =
        (batch_download entries args env fs).flogs.length
    ∧ (∀ l ∈ (batch_download entries args env fs).flogs,
        ∃ n, n ∈ entries.map Prod.fst ∧ l.line = expectedLine l.kind n)
    ∧ ∀ (fs' : Fs) (e : Nat × String),
        (processEntry args env fs' e).errors ≤ 1
        ∧ (processEntry args env fs' e).errors = (processEntry args env fs' e).flogs.length
        ∧ ∀ l ∈ (processEntry args env fs' e).flogs, l.line = expectedLine l.kind e.1 := by
  obtain ⟨L, hf, he, ha, hl⟩ := batch_fold_spec args env entries ⟨0, fs, [], [], []⟩
  unfold batch_download
  refine ⟨by simpa using ha, ?_, ?_, fun fs' e =>
    ⟨(processEntry_spec args env fs' e).2.1, (processEntry_spec args env fs' e).1,
     (processEntry_spec args env fs' e).2.2⟩⟩
  · rw [he, hf]
    simp
  · intro l hlmem
    apply hl
    rw [hf] at hlmem
    simpa using hlmem

/-! ## Claim C5 -/

/-- The plural suffix `"s"[: errors ^ 1]` is empty exactly for one error. -/
theorem pluralS_empty_iff (e : Nat) : pluralS e = "" ↔ e = 1 := by
  have hx : e ^^^ 1 = 0 ↔ e = 1 := Nat.xor_eq_zero
  unfold pluralS
  split <;> simp_all

/-- Every `prep_download` exception caught in the batch loop counts exactly
one error for its entry. -/
theorem processEntry_errors_of_prep_error (args : Args) (env : Env) (fs : Fs)
    (n : Nat) (dl : String) (err : PrepError) (ev : List ConnectEvent) (c : Nat)
    (hp : prep_download dl args env fs = (.error err, ev, c)) :
    (processEntry args env fs (n, dl)).errors = 1 := by
  cases err <;> simp [processEntry, hp]

/-- A dry-run entry whose metadata is present counts zero errors. -/
theorem processEntry_errors_of_dry_run (args : Args) (env : Env) (fs : Fs)
    (n : Nat) (dl : String) (p : Prepped) (ev : List ConnectEvent) (c : Nat)
    (info : ImageInfo) (hdry : args.dry_run = true)
    (hp : prep_download dl args env fs = (.ok p, ev, c))
    (himg : p.image.imageinfo = some info) :
    (processEntry args env fs (n, dl)).errors = 0 := by
  simp [processEntry, hp, download_dry_run_skips p args env fs info himg hdry]

/-- C5: in batch mode the exit code is 0 iff the summed error count is 0,
otherwise 1 together with a summary stating the count whose plural suffix is
empty exactly for one problem; every prepare-stage failure (parse,
already-exists, connection-class) counts one error while a dry-run outcome
counts none. -/
theorem c5_batch_exit_code_and_pluralization (entries : List (Nat × String))
    (args : Args) (env : Env) (fs : Fs) :
    ((process_download_batch entries args env fs).exitCode = 0 ↔
      (batch_download entries args env fs).errors = 0)
    ∧ ((batch_download entries args env fs).errors ≠ 0 →
        (process_download_batch entries args env fs).summary =
          some ((batch_download entries args env fs).errors,
            pluralS (batch_download entries args env fs).errors))
    ∧ ((batch_download entries args env fs).errors = 0 →
        (process_download_batch entries args env fs).summary = none)
    ∧ (∀ e : Nat, pluralS e = "" ↔ e = 1)
    ∧ (∀ (fs' : Fs) (n : Nat) (dl : String) (err : PrepError)
        (ev : List ConnectEvent) (c : Nat),
        prep_download dl args env fs' = (.error err, ev, c) →
        (processEntry args env fs' (n, dl)).errors = 1)
    ∧ (∀ (fs' : Fs) (n : Nat) (dl : String) (p : Prepped)
        (ev : List ConnectEvent) (c : Nat) (info : ImageInfo),
        args.dry_run = true → prep_download dl args env fs' = (.ok p, ev, c) →
        p.image.imageinfo = some info →
        (processEntry args env fs' (n, dl)).errors = 0) := by
  refine ⟨?_, ?_, ?_, pluralS_empty_iff,
    fun fs' n dl err ev c hp =>
      processEntry_errors_of_prep_error args env fs' n dl err ev c hp,
    fun fs' n dl p ev c info hdry hp himg =>
      processEntry_errors_of_dry_run args env fs' n dl p ev c info hdry hp himg⟩ <;>
    by_cases herr : (batch_download entries args env fs).errors = 0 <;>
      simp [process_download_batch, herr]

/-! ## Claim C9 -/

/-- A case-insensitive `File:` prefix followed by a matching body matches the
whole pattern at the current position. -/
theorem matchHere_of_file (kw body : List Char)
    (hk : kw.map Char.toLower = fileKw) (hb : bodyOK body = true) :
    matchHere (kw ++ body) = some body := by
  have hlen : kw.length = 5 := by
    have := congrArg List.length hk
    simpa using this
  unfold matchHere
  rw [List.take_left' hlen, List.drop_left' hlen]
  simp [hk, hb]

/-- A case-insensitive `Image:` prefix followed by a matching body matches
the whole pattern at the current position. -/
theorem matchHere_of_image (kw body : List Char)
    (hk : kw.map Char.toLower = imageKw) (hb : bodyOK body = true) :
    matchHere (kw ++ body) = some body := by
  have hlen : kw.length = 6 := by
    have := congrArg List.length hk
    simpa using this
  have h5 : ((kw ++ body).take 5).map Char.toLower = imageKw.take 5 := by
    rw [List.take_append_of_le_length (by omega), List.map_take, hk]
  unfold matchHere
  rw [List.take_left' hlen, List.drop_left' hlen]
  simp [h5, hk, hb, imageKw, fileKw]

/-- `re.search` succeeds on any string with a matching position, whatever
precedes it. -/
theorem searchFile_some_of_matchHere : ∀ (pre cs g : List Char),
    matchHere cs = some g → ∃ g', searchFile (pre ++ cs) = some g' := by
  intro pre
  induction pre with
  | nil =>
    intro cs g h
    cases cs with
    | nil => simp [matchHere, fileKw, imageKw] at h
    | cons c r => exact ⟨g, by simp [searchFile, h]⟩
  | cons p pre ih =>
    intro cs g h
    rcases hm : matchHere (p :: (pre ++ cs)) with _ | g''
    · obtain ⟨g', hs⟩ := ih cs g h
      exact ⟨g', by simp [searchFile, hm, hs]⟩
    · exact ⟨g'', by simp [searchFile, hm]⟩

/-- Dropping a proper prefix preserves the last element. -/
theorem getLast?_drop_eq {α : Type} : ∀ (l : List α) (j : Nat), l.drop j ≠ [] →
    (l.drop j).getLast? = l.getLast? := by
  intro l
  induction l with
  | nil => intro j h; simp at h
  | cons x xs ih =>
    intro j h
    cases j with
    | zero => rfl
    | succ j =>
      rw [List.drop_succ_cons] at h ⊢
      rw [ih j h]
      have hxs : xs ≠ [] := by
        intro hx
        subst hx
        simp at h
      cases xs with
      | nil => simp at hxs
      | cons y ys => simp [List.getLast?_cons_cons]

/-- A matching body ends in a word character. -/
theorem bodyOK_last_word (body : List Char) (hb : bodyOK body = true) :
    ∃ c, body.getLast? = some c ∧ isWordChar c = true := by
  unfold bodyOK at hb
  rw [List.any_eq_true] at hb
  obtain ⟨i, _, hcond⟩ := hb
  simp only [Bool.and_eq_true, decide_eq_true_eq] at hcond
  obtain ⟨⟨⟨⟨h1, h2⟩, hdot⟩, hpre⟩, hsuf⟩ := hcond
  have hdrop_ne : body.drop (i + 1) ≠ [] := by
    intro hnil
    have := congrArg List.length hnil
    simp [List.length_drop] at this
    omega
  have hlast := getLast?_drop_eq body (i + 1) hdrop_ne
  rcases hgl : (body.drop (i + 1)).getLast? with _ | c
  · exact absurd (List.getLast?_eq_none_iff.mp hgl) hdrop_ne
  · refine ⟨c, by rw [← hlast, hgl], ?_⟩
    have hc0 : c ∈ (body.drop (i + 1)).getLast? := Option.mem_def.mpr hgl
    obtain ⟨hne', hceq⟩ := List.mem_getLast?_eq_getLast hc0
    have hc : c ∈ body.drop (i + 1) := hceq ▸ List.getLast_mem hne'
    exact List.all_eq_true.mp hsuf c hc

/-- `valid_file` succeeds on every string that ends with a prefixed file
pattern, whatever precedes it. -/
theorem valid_file_of_suffix_pattern (pre kw body : List Char)
    (hk : kw.map Char.toLower = fileKw ∨ kw.map Char.toLower = imageKw)
    (hb : bodyOK body = true) :
    ∃ g, valid_file (String.mk (pre ++ (kw ++ body))) = some g := by
  have hm : matchHere (kw ++ body) = some body :=
    hk.elim (fun h => matchHere_of_file kw body h hb)
      (fun h => matchHere_of_image kw body h hb)
  obtain ⟨c, hgl, hcw⟩ := bodyOK_last_word body hb
  have hbody_ne : body ≠ [] := by
    intro h
    subst h
    simp at hgl
  have hlast : (pre ++ (kw ++ body)).getLast? = some c := by
    rw [List.getLast?_append_of_ne_nil pre (by simp [hbody_ne]),
      List.getLast?_append_of_ne_nil kw hbody_ne, hgl]
  have hcnl : c ≠ '\n' := by
    intro h
    rw [h] at hcw
    exact absurd hcw (by decide)
  have hnl : ((pre ++ (kw ++ body)).getLast? == some '\n') = false := by
    rw [hlast]
    simp [hcnl]
  obtain ⟨g', hs⟩ := searchFile_some_of_matchHere pre (kw ++ body) body hm
  refine ⟨String.mk g', ?_⟩
  unfold valid_file
  show ((if ((pre ++ (kw ++ body)).getLast? == some '\n') = true then _ else _ :
    List Char) |> searchFile |>.map String.mk) = _
  rw [hnl]
  simp only [Bool.false_eq_true, if_false]
  rw [hs]
  rfl

set_option maxRecDepth 400000 in
/-- C9: the file-name pattern is anchored only at the end of the string: for
every non-URL input ending with a case-insensitive `File:` or `Image:` prefix
followed by a valid name-and-extension body, resolution succeeds whatever
characters precede the prefix; in particular `xxFile:Example.jpg` resolves to
the name `Example.jpg` rather than failing with `ParseError`. -/
theorem c9_pattern_anchored_at_end_only :
    (∀ (pre kw body : List Char) (args : Args),
      (urlNetlocPath (String.mk (pre ++ (kw ++ body)))).1.data.isEmpty = true →
      (kw.map Char.toLower = fileKw ∨ kw.map Char.toLower = imageKw) →
      bodyOK body = true →
      ∃ f w, get_dest (String.mk (pre ++ (kw ++ body))) args = (.ok f, w))
    ∧ (get_dest "xxFile:Example.jpg" {}).1 =
        .ok ⟨"Example.jpg", "Example.jpg", DEFAULT_SITE⟩ := by
  constructor
  · intro pre kw body args hnet hk hb
    obtain ⟨g, hv⟩ := valid_file_of_suffix_pattern pre kw body hk hb
    have hnet' : (urlNetlocPath (String.mk (pre ++ (kw ++ body)))).1.data = [] := by
      simpa using hnet
    refine ⟨File.make (unquote g) (orElseStr args.output (unquote g))
      (args.site.getD DEFAULT_SITE), false, ?_⟩
    simp [get_dest, hnet', hv]
  · decide

set_option maxRecDepth 400000 in
/-- C9 witness: the universal part instantiated at `xx` + `File:` +
`Example.jpg`. -/
theorem c9_witness :
    ∃ f w, get_dest (String.mk ("xx".data ++ ("File:".data ++ "Example.jpg".data)))
      {} = (.ok f, w) :=
  c9_pattern_anchored_at_end_only.1 "xx".data "File:".data "Example.jpg".data {}
    (by decide) (Or.inl (by decide)) (by decide)

end Wikiget
